import Mathlib

/-!
Verification of the beam-tracing core of Advent of Code 2023 day 16
(`src/y2023/d16.rs`): the redirection table, the recursive beam tracer
`shoot_beam`, the energized-tile counter, the border-entry maximizer, and the
grid construction in `from_strings`.
-/

set_option maxRecDepth 8000

/-- Modelled from the spec: the four cardinal beam directions (§3); the
`Direction` enum lives in the crate's shared library (`pub use aoc::*`), which
is outside the given sources, with equality by value. -/
inductive Direction : Type
  | North
  | East
  | South
  | West
  deriving DecidableEq, Fintype

/-- Beams are identified by their travel direction: `type Beam = Direction`. -/
abbrev Beam := Direction

/-- Modelled from the spec: an integer grid position, `x` the column and `y`
the row, both zero-based (§3); the `Point` struct lives in the crate's shared
library, outside the given sources. -/
structure Point : Type where
  x : Int
  y : Int
  deriving DecidableEq

/-- Modelled from the spec: moving one unit in a direction (§4.3 step 3);
North decreases `y` and South increases it, matching the entry directions of
the maximizer (top-row entries head South into the grid, §4.5). -/
def Point.move_to (p : Point) (d : Direction) : Point :=
  match d with
  | .North => ⟨p.x, p.y - 1⟩
  | .East => ⟨p.x + 1, p.y⟩
  | .South => ⟨p.x, p.y + 1⟩
  | .West => ⟨p.x - 1, p.y⟩

/-- The five terrain kinds of `define_convertable_enum! { TerrainType { ... } }`. -/
inductive TerrainType : Type
  | EmptySpace
  | NorthEastMirror
  | NorthWestMirror
  | NorthSouthSplitter
  | EastWestSplitter
  deriving DecidableEq

/-- Modelled from the spec: the symbol table is listed in the source's
`define_convertable_enum!` invocation; the macro body is outside the given
sources, and any unrecognized symbol is a parse error (§6), modelled as
`none`. -/
def TerrainType.from_char (c : Char) : Option TerrainType :=
  if c = '.' then some .EmptySpace
  else if c = '/' then some .NorthEastMirror
  else if c = '\\' then some .NorthWestMirror
  else if c = '|' then some .NorthSouthSplitter
  else if c = '-' then some .EastWestSplitter
  else none

/-- Redirection table `TerrainType::redirect` from the source, arm for arm (the two `|` patterns
of the Rust match are split into their cases). -/
def TerrainType.redirect (t : TerrainType) (beam : Beam) : List Beam :=
  match t, beam with
  | .NorthEastMirror, .North => [.East]
  | .NorthEastMirror, .East => [.North]
  | .NorthEastMirror, .South => [.West]
  | .NorthEastMirror, .West => [.South]
  | .NorthWestMirror, .North => [.West]
  | .NorthWestMirror, .East => [.South]
  | .NorthWestMirror, .South => [.East]
  | .NorthWestMirror, .West => [.North]
  | .NorthSouthSplitter, .East => [.North, .South]
  | .NorthSouthSplitter, .West => [.North, .South]
  | .EastWestSplitter, .North => [.East, .West]
  | .EastWestSplitter, .South => [.East, .West]
  | _, _ => [beam]

/-- Cell state `Terrain` from the source: the cell's kind, the beams recorded at it,
and its energized flag. -/
structure Terrain : Type where
  the_type : TerrainType
  beams : List Beam
  energized : Bool
  deriving DecidableEq

/-- Parser `Terrain::from_char` from the source; the unrecognized-symbol failure of
the underlying `TerrainType::from_char` propagates. -/
def Terrain.from_char (c : Char) : Option Terrain :=
  (TerrainType.from_char c).map fun t => { the_type := t, beams := [], energized := false }

/-- State `ContraptionMap` from the source. `Grid<Terrain>` (the crate's grid module,
a vector of row vectors, outside the given sources but fixed by every use in
`d16.rs`: `len`, `first`, row iteration, `grid[y][x]`) is a list of row lists,
and the `HashSet<Point>` of visited points is a duplicate-free list. -/
structure ContraptionMap : Type where
  rows : Int
  columns : Int
  grid : List (List Terrain)
  visited : List Point
  deriving DecidableEq

/-- Index of a Rust `as usize` cast on an `i64` coordinate: a negative value
wraps above `isize::MAX`, beyond any vector length, so it denotes no cell. -/
def idxOf (i : Int) : Option Nat :=
  if 0 ≤ i then some i.toNat else none

/-- Lookup `ContraptionMap::get_terrain`: `self.grid[point.y as usize][point.x as usize]`,
with `none` for the out-of-bounds indexing panic. -/
def ContraptionMap.get_terrain (m : ContraptionMap) (p : Point) : Option Terrain :=
  (idxOf p.y).bind fun j => (m.grid[j]?).bind fun row => (idxOf p.x).bind fun i => row[i]?

/-- Write one cell of the grid (the mutation performed through
`get_terrain_mut`); out-of-range indices leave the grid unchanged (such a
write would panic in Rust and never happens in the traced code). -/
def setCell (g : List (List Terrain)) (j i : Nat) (t : Terrain) : List (List Terrain) :=
  match g[j]? with
  | some row => g.set j (row.set i t)
  | none => g

/-- State update through `ContraptionMap::get_terrain_mut`. -/
def ContraptionMap.set_terrain (m : ContraptionMap) (p : Point) (t : Terrain) : ContraptionMap :=
  match idxOf p.y, idxOf p.x with
  | some j, some i => { m with grid := setCell m.grid j i t }
  | _, _ => m

/-- Bounds check `ContraptionMap::within_grid` from the source. -/
def ContraptionMap.within_grid (m : ContraptionMap) (p : Point) : Prop :=
  0 ≤ p.x ∧ p.x < m.columns ∧ 0 ≤ p.y ∧ p.y < m.rows

instance (m : ContraptionMap) (p : Point) : Decidable (m.within_grid p) := by
  unfold ContraptionMap.within_grid
  exact inferInstance

/-- Insertion `HashSet::insert` on the visited set: add the point when absent. -/
def insertPoint (l : List Point) (p : Point) : List Point :=
  if p ∈ l then l else p :: l

/-- The four directions, used to count what a cell has not yet recorded. -/
def allDirections : List Direction := [.North, .East, .South, .West]

/-- Number of directions not yet recorded at a cell. -/
def cellMeasure (t : Terrain) : Nat :=
  (allDirections.filter (fun d => decide (d ∉ t.beams))).length

/-- Per-row sum of `cellMeasure`. -/
def rowMeasure (row : List Terrain) : Nat := (row.map cellMeasure).sum

/-- Total number of (cell, direction) pairs not yet recorded; every recursive
call of `shoot_beam` happens strictly below a freshly recorded pair, so this
bounds the recursion depth. -/
def mapMeasure (m : ContraptionMap) : Nat := (m.grid.map rowMeasure).sum

/-- How a budgeted trace can stop early: the depth budget ran out, or the grid
was indexed out of bounds (a panic in Rust). -/
inductive TraceError : Type
  | outOfGas
  | oobAccess
  deriving DecidableEq

/-- Tracer `ContraptionMap::shoot_beam` from the source, with an explicit recursion
depth budget `gas` standing for the Rust call stack: check `within_grid`,
insert the point into `visited`, stop if the beam is already recorded at the
cell, otherwise record it, energize the cell, and recurse on every redirected
beam at its next position. -/
def shootBeamGas : Nat → ContraptionMap → Point → Beam → Except TraceError ContraptionMap
  | 0, _, _, _ => .error .outOfGas
  | gas + 1, m, p, beam =>
    if m.within_grid p then
      let m₁ : ContraptionMap := { m with visited := insertPoint m.visited p }
      match m₁.get_terrain p with
      | none => .error .oobAccess
      | some t =>
        if beam ∈ t.beams then .ok m₁
        else
          let m₂ := m₁.set_terrain p { t with beams := t.beams ++ [beam], energized := true }
          (t.the_type.redirect beam).foldlM
            (fun acc rb => shootBeamGas gas acc (p.move_to rb) rb) m₂
    else .ok m

/-- Result state of a budgeted trace, the input state if it stopped early. -/
def okOr (m : ContraptionMap) (r : Except TraceError ContraptionMap) : ContraptionMap :=
  match r with
  | .ok m' => m'
  | .error _ => m

/-- Whether a budgeted trace ran to completion. -/
def isOkE (r : Except TraceError ContraptionMap) : Bool :=
  match r with
  | .ok _ => true
  | .error _ => false

/-- Entry point `shoot_beam` as the callers use it: the Rust recursion carries no budget;
here the depth budget `mapMeasure m + 1` is enough by the adequacy theorem, so
this total function is what the source computes. -/
def ContraptionMap.shoot_beam (m : ContraptionMap) (p : Point) (beam : Beam) : ContraptionMap :=
  okOr m (shootBeamGas (mapMeasure m + 1) m p beam)

/-- One cell of the session reset at the top of
`get_amount_of_energized_tiles`: `energized = false`, `beams.clear()`. -/
def Terrain.reset (t : Terrain) : Terrain := { t with energized := false, beams := [] }

/-- The session reset at the top of `get_amount_of_energized_tiles`: clear
every cell's beams and energized flag and clear the visited set. -/
def ContraptionMap.clearTrace (m : ContraptionMap) : ContraptionMap :=
  { m with grid := m.grid.map (List.map Terrain.reset), visited := [] }

/-- Oracle `ContraptionMap::get_amount_of_energized_tiles` from the source: reset the
session, trace, return the new state and `visited.len()`. -/
def ContraptionMap.get_amount_of_energized_tiles (m : ContraptionMap) (p : Point) (beam : Beam) :
    ContraptionMap × Int :=
  let m₁ := m.clearTrace.shoot_beam p beam
  (m₁, (m₁.visited.length : Int))

/-- Range `0..n` over the `Int` bounds used by the maximizer's loops. -/
def intRange (n : Int) : List Int := (List.range n.toNat).map (fun k => (k : Int))

/-- Maximizer `ContraptionMap::get_most_amount_of_energized_tiles` from the source,
including its literal entry list: for each column `i` the entries
`(Point(i, 0), South)` and `(Point(i, rows-1), North)`, and for each row `i`
the entries `(Point(0, i), East)` and `(Point(0, columns-1), West)`. -/
def ContraptionMap.get_most_amount_of_energized_tiles (m : ContraptionMap) :
    ContraptionMap × Int :=
  let r₁ := (intRange m.columns).foldl
    (fun acc i =>
      let a := acc.1.get_amount_of_energized_tiles ⟨i, 0⟩ .South
      let most₁ := max acc.2 a.2
      let b := a.1.get_amount_of_energized_tiles ⟨i, a.1.rows - 1⟩ .North
      (b.1, max most₁ b.2))
    (m, 0)
  (intRange r₁.1.rows).foldl
    (fun acc i =>
      let a := acc.1.get_amount_of_energized_tiles ⟨(0 : Int), i⟩ .East
      let most₁ := max acc.2 a.2
      let b := a.1.get_amount_of_energized_tiles ⟨(0 : Int), a.1.columns - 1⟩ .West
      (b.1, max most₁ b.2))
    r₁

/-- Construction `ContraptionMap::from_strings` from the source: drop empty lines, parse
every character, panic (`none`) on `first().unwrap()` when nothing remains;
row lengths are never compared. -/
def ContraptionMap.from_strings (input : List String) : Option ContraptionMap := do
  let grid ← (input.filter (fun s => !s.isEmpty)).mapM
    (fun s => s.toList.mapM Terrain.from_char)
  let firstRow ← grid.head?
  some { rows := (grid.length : Int), columns := (firstRow.length : Int),
         grid := grid, visited := [] }

/-- Rendering `ContraptionMap::get_energy_map` from the source: one `#` or `.` per cell,
rows joined by a newline. -/
def ContraptionMap.get_energy_map (m : ContraptionMap) : String :=
  String.intercalate "\n"
    (m.grid.map (fun row => String.mk (row.map (fun t => if t.energized then '#' else '.'))))

/-- The beams recorded at a position (empty off the grid). -/
def beamsAt (m : ContraptionMap) (p : Point) : List Beam :=
  match m.get_terrain p with
  | some t => t.beams
  | none => []

/-- The energized flag at a position (`false` off the grid). -/
def energizedAt (m : ContraptionMap) (p : Point) : Bool :=
  match m.get_terrain p with
  | some t => t.energized
  | none => false

/-- Number of energized cells of the grid. -/
def energizedCount (m : ContraptionMap) : Nat :=
  (m.grid.map (fun row => (row.filter (fun t => t.energized)).length)).sum

/-- Number of occurrences of a `#` in a string. -/
def countHash (s : String) : Nat := s.toList.count '#'

/-- The dimension fields agree with the stored grid and the grid is
rectangular, as after a successful rectangular parse. -/
def ContraptionMap.WellFormed (m : ContraptionMap) : Prop :=
  m.rows = (m.grid.length : Int) ∧ ∀ row ∈ m.grid, (row.length : Int) = m.columns

/-- No cell records the same beam direction twice. -/
def NodupBeams (m : ContraptionMap) : Prop :=
  ∀ row ∈ m.grid, ∀ t ∈ row, t.beams.Nodup

instance (m : ContraptionMap) : Decidable m.WellFormed := by
  unfold ContraptionMap.WellFormed
  exact inferInstance

instance (m : ContraptionMap) : Decidable (NodupBeams m) := by
  unfold NodupBeams
  exact inferInstance

/-- What one call of the tracer preserves or only grows: the dimensions, the
terrain kinds, the recorded beams, and the visited set. -/
def Pres (m m' : ContraptionMap) : Prop :=
  m'.rows = m.rows ∧ m'.columns = m.columns ∧
  m'.grid.map (List.map Terrain.the_type) = m.grid.map (List.map Terrain.the_type) ∧
  (∀ q d, d ∈ beamsAt m q → d ∈ beamsAt m' q) ∧
  (∀ q, q ∈ m.visited → q ∈ m'.visited)

/-- Session bookkeeping coherence: visited points are exactly the positions
with a recorded beam, energized flags agree with them, and the visited count
equals the energized-cell count. -/
def SessionInv (m : ContraptionMap) : Prop :=
  (∀ q, q ∈ m.visited ↔ beamsAt m q ≠ []) ∧
  (∀ q, energizedAt m q = true ↔ beamsAt m q ≠ []) ∧
  m.visited.length = energizedCount m

/-- Inputs `from_strings` accepts: some nonempty line remains and every
character of every nonempty line is a recognized symbol. -/
def ParseAccepts (input : List String) : Prop :=
  input.filter (fun s => !s.isEmpty) ≠ [] ∧
  ∀ s ∈ input.filter (fun s => !s.isEmpty), ∀ c ∈ s.toList,
    (TerrainType.from_char c).isSome = true

/-- A 1×1 grid holding empty space. -/
def cmOne : ContraptionMap := ⟨1, 1, [[⟨TerrainType.EmptySpace, [], false⟩]], []⟩

/-- A 1×1 session in which the beam `(0,0) East` is already processed. -/
def cmCycle : ContraptionMap :=
  ⟨1, 1, [[⟨TerrainType.EmptySpace, [Direction.East], true⟩]], [⟨0, 0⟩]⟩

/-- A 1×1 grid holding a vertical splitter. -/
def cmSplit : ContraptionMap := ⟨1, 1, [[⟨TerrainType.NorthSouthSplitter, [], false⟩]], []⟩

/-- A 3×1 grid: empty space, a vertical splitter, empty space. -/
def cmColumn : ContraptionMap :=
  ⟨3, 1, [[⟨TerrainType.EmptySpace, [], false⟩], [⟨TerrainType.NorthSouthSplitter, [], false⟩],
    [⟨TerrainType.EmptySpace, [], false⟩]], []⟩

theorem shootBeamGas_zero (m : ContraptionMap) (p : Point) (b : Beam) :
    shootBeamGas 0 m p b = .error .outOfGas := rfl

theorem shootBeamGas_succ (gas : Nat) (m : ContraptionMap) (p : Point) (beam : Beam) :
    shootBeamGas (gas + 1) m p beam =
      if m.within_grid p then
        match ContraptionMap.get_terrain { m with visited := insertPoint m.visited p } p with
        | none => .error .oobAccess
        | some t =>
          if beam ∈ t.beams then .ok { m with visited := insertPoint m.visited p }
          else
            (t.the_type.redirect beam).foldlM
              (fun acc rb => shootBeamGas gas acc (p.move_to rb) rb)
              (ContraptionMap.set_terrain { m with visited := insertPoint m.visited p } p
                { t with beams := t.beams ++ [beam], energized := true })
      else .ok m := rfl


theorem mem_insertPoint (l : List Point) (p q : Point) :
    q ∈ insertPoint l p ↔ q = p ∨ q ∈ l := by
  unfold insertPoint
  by_cases h : p ∈ l
  · simp only [if_pos h]
    constructor
    · exact fun hq => Or.inr hq
    · rintro (rfl | hq)
      · exact h
      · exact hq
  · simp [if_neg h]

theorem insertPoint_of_mem {l : List Point} {p : Point} (h : p ∈ l) :
    insertPoint l p = l := if_pos h

theorem length_insertPoint_of_not_mem {l : List Point} {p : Point} (h : p ∉ l) :
    (insertPoint l p).length = l.length + 1 := by
  unfold insertPoint
  rw [if_neg h]
  rfl

theorem idxOf_of_nonneg {i : Int} (h : 0 ≤ i) : idxOf i = some i.toNat := if_pos h

theorem idxOf_inj {i j : Int} {n : Nat} (hi : idxOf i = some n) (hj : idxOf j = some n) :
    i = j := by
  unfold idxOf at hi hj
  split at hi <;> split at hj <;> simp_all
  omega

theorem get_terrain_decomp {m : ContraptionMap} {p : Point} {t : Terrain}
    (hg : m.get_terrain p = some t) :
    ∃ j row i, idxOf p.y = some j ∧ m.grid[j]? = some row ∧ idxOf p.x = some i ∧
      row[i]? = some t := by
  unfold ContraptionMap.get_terrain at hg
  cases hy : idxOf p.y with
  | none => rw [hy, Option.none_bind] at hg; exact absurd hg (by simp)
  | some j =>
    rw [hy, Option.some_bind] at hg
    cases hrow : m.grid[j]? with
    | none => rw [hrow, Option.none_bind] at hg; exact absurd hg (by simp)
    | some row =>
      rw [hrow, Option.some_bind] at hg
      cases hx : idxOf p.x with
      | none => rw [hx, Option.none_bind] at hg; exact absurd hg (by simp)
      | some i =>
        rw [hx, Option.some_bind] at hg
        exact ⟨j, row, i, rfl, hrow, rfl, hg⟩

theorem get_terrain_build {m : ContraptionMap} {p : Point} {j i : Nat} {row : List Terrain}
    (hy : idxOf p.y = some j) (hrow : m.grid[j]? = some row) (hx : idxOf p.x = some i) :
    m.get_terrain p = row[i]? := by
  unfold ContraptionMap.get_terrain
  rw [hy, Option.some_bind, hrow, Option.some_bind, hx, Option.some_bind]

theorem get_terrain_visited (m : ContraptionMap) (v : List Point) (p : Point) :
    ContraptionMap.get_terrain { m with visited := v } p = m.get_terrain p := rfl

theorem set_terrain_rows (m : ContraptionMap) (p : Point) (t : Terrain) :
    (m.set_terrain p t).rows = m.rows := by
  unfold ContraptionMap.set_terrain
  split <;> rfl

theorem set_terrain_columns (m : ContraptionMap) (p : Point) (t : Terrain) :
    (m.set_terrain p t).columns = m.columns := by
  unfold ContraptionMap.set_terrain
  split <;> rfl

theorem set_terrain_visited (m : ContraptionMap) (p : Point) (t : Terrain) :
    (m.set_terrain p t).visited = m.visited := by
  unfold ContraptionMap.set_terrain
  split <;> rfl

theorem within_grid_set_terrain (m : ContraptionMap) (p : Point) (t : Terrain) (q : Point) :
    (m.set_terrain p t).within_grid q ↔ m.within_grid q := by
  unfold ContraptionMap.within_grid
  rw [set_terrain_rows, set_terrain_columns]

theorem set_terrain_grid {m : ContraptionMap} {p : Point} {j i : Nat} {row : List Terrain}
    (hy : idxOf p.y = some j) (hrow : m.grid[j]? = some row) (hx : idxOf p.x = some i)
    (t : Terrain) :
    (m.set_terrain p t).grid = m.grid.set j (row.set i t) := by
  unfold ContraptionMap.set_terrain
  rw [hy, hx]
  simp only [setCell, hrow]

theorem get_terrain_set_self {m : ContraptionMap} {p : Point} {t₀ : Terrain}
    (hg : m.get_terrain p = some t₀) (t : Terrain) :
    (m.set_terrain p t).get_terrain p = some t := by
  obtain ⟨j, row, i, hy, hrow, hx, hcell⟩ := get_terrain_decomp hg
  have hj : j < m.grid.length := (List.getElem?_eq_some_iff.mp hrow).1
  have hi : i < row.length := (List.getElem?_eq_some_iff.mp hcell).1
  have hrow' : (m.set_terrain p t).grid[j]? = some (row.set i t) := by
    rw [set_terrain_grid hy hrow hx t]
    simp [List.getElem?_set_self, hj]
  have h3 := @get_terrain_build (m.set_terrain p t) p j i (row.set i t) hy hrow' hx
  rw [h3]
  simp [List.getElem?_set_self, hi]

theorem get_terrain_none_x {m : ContraptionMap} {q : Point} (hx : idxOf q.x = none) :
    m.get_terrain q = none := by
  unfold ContraptionMap.get_terrain
  cases hy : idxOf q.y with
  | none => rw [Option.none_bind]
  | some j =>
    rw [Option.some_bind]
    cases hrow : m.grid[j]? with
    | none => rw [Option.none_bind]
    | some row => rw [Option.some_bind, hx, Option.none_bind]

theorem get_terrain_set_other {m : ContraptionMap} {p q : Point} {t₀ : Terrain}
    (hg : m.get_terrain p = some t₀) (t : Terrain) (hq : q ≠ p) :
    (m.set_terrain p t).get_terrain q = m.get_terrain q := by
  obtain ⟨j, row, i, hy, hrow, hx, hcell⟩ := get_terrain_decomp hg
  have hgrid := set_terrain_grid hy hrow hx t
  cases hy' : idxOf q.y with
  | none =>
    unfold ContraptionMap.get_terrain
    rw [hy']
    rfl
  | some j' =>
    by_cases hjj : j' = j
    · subst hjj
      have hyy : q.y = p.y := idxOf_inj hy' hy
      have hrow' : (m.set_terrain p t).grid[j']? = some (row.set i t) := by
        rw [hgrid]
        simp [List.getElem?_set_self, (List.getElem?_eq_some_iff.mp hrow).1]
      cases hx' : idxOf q.x with
      | none =>
        rw [get_terrain_none_x hx', get_terrain_none_x hx']
      | some i' =>
        have hii : i' ≠ i := by
          intro h
          subst h
          exact hq (by
            have hxx : q.x = p.x := idxOf_inj hx' hx
            cases p
            cases q
            simp_all)
        rw [get_terrain_build hy' hrow' hx', get_terrain_build hy' hrow hx']
        exact List.getElem?_set_ne (by omega)
    · have hrow' : (m.set_terrain p t).grid[j']? = m.grid[j']? := by
        rw [hgrid]
        exact List.getElem?_set_ne (by omega)
      unfold ContraptionMap.get_terrain
      rw [hy']
      simp only [Option.some_bind]
      rw [hrow']

theorem filter_length_mono {α : Type} (l : List α) (p q : α → Bool)
    (h : ∀ x, q x = true → p x = true) :
    (l.filter q).length ≤ (l.filter p).length := by
  induction l with
  | nil => simp
  | cons a tl ih =>
    cases hq : q a with
    | true =>
      rw [List.filter_cons_of_pos hq, List.filter_cons_of_pos (h a hq)]
      simpa using ih
    | false =>
      rw [List.filter_cons_of_neg (by simp [hq])]
      cases hp : p a with
      | true =>
        rw [List.filter_cons_of_pos hp]
        exact le_trans ih (by simp)
      | false =>
        rw [List.filter_cons_of_neg (by simp [hp])]
        exact ih

theorem filter_length_lt {α : Type} (l : List α) (p q : α → Bool)
    (h : ∀ x, q x = true → p x = true) (b : α) (hb : b ∈ l)
    (hpb : p b = true) (hqb : q b = false) :
    (l.filter q).length < (l.filter p).length := by
  induction l with
  | nil => cases hb
  | cons a tl ih =>
    cases hq : q a with
    | true =>
      rw [List.filter_cons_of_pos hq, List.filter_cons_of_pos (h a hq)]
      have hab : b ≠ a := fun he => by rw [he] at hqb; rw [hqb] at hq; cases hq
      have hbtl : b ∈ tl := by
        rcases List.mem_cons.mp hb with he | htl
        · exact absurd he hab
        · exact htl
      simpa using ih hbtl
    | false =>
      rw [List.filter_cons_of_neg (by simp [hq])]
      cases hp : p a with
      | true =>
        rw [List.filter_cons_of_pos hp]
        have := filter_length_mono tl p q h
        simp only [List.length_cons]
        omega
      | false =>
        rw [List.filter_cons_of_neg (by simp [hp])]
        have hbtl : b ∈ tl := by
          rcases List.mem_cons.mp hb with he | htl
          · rw [he] at hpb; rw [hpb] at hp; cases hp
          · exact htl
        exact ih hbtl

theorem mem_allDirections (d : Direction) : d ∈ allDirections := by
  cases d <;> simp [allDirections]

theorem cellMeasure_push {t : Terrain} {b : Beam} (hb : b ∉ t.beams) :
    cellMeasure { t with beams := t.beams ++ [b], energized := true } < cellMeasure t := by
  unfold cellMeasure
  refine filter_length_lt allDirections _ _ ?_ b (mem_allDirections b) ?_ ?_
  · intro x hx
    simp only [decide_eq_true_eq] at hx ⊢
    intro hmem
    exact hx (List.mem_append_left _ hmem)
  · simpa using hb
  · simp

theorem cellMeasure_le_four (t : Terrain) : cellMeasure t ≤ 4 :=
  le_trans (List.length_filter_le _ _) (by rfl)

theorem sum_set_add (l : List Nat) (j a b : Nat) (h : l[j]? = some a) :
    (l.set j b).sum + a = l.sum + b := by
  induction l generalizing j with
  | nil => simp at h
  | cons x tl ih =>
    cases j with
    | zero =>
      simp only [List.getElem?_cons_zero, Option.some.injEq] at h
      subst h
      simp only [List.set_cons_zero, List.sum_cons]
      omega
    | succ j =>
      simp only [List.getElem?_cons_succ] at h
      have := ih j h
      simp only [List.set_cons_succ, List.sum_cons]
      omega

theorem sum_set_lt (l : List Nat) (j a b : Nat) (h : l[j]? = some a) (hb : b < a) :
    (l.set j b).sum < l.sum := by
  have := sum_set_add l j a b h
  omega

theorem rowMeasure_set_lt {row : List Terrain} {i : Nat} {t₀ t' : Terrain}
    (h : row[i]? = some t₀) (hc : cellMeasure t' < cellMeasure t₀) :
    rowMeasure (row.set i t') < rowMeasure row := by
  unfold rowMeasure
  rw [List.map_set]
  exact sum_set_lt _ i (cellMeasure t₀) (cellMeasure t') (by rw [List.getElem?_map, h]; rfl) hc

theorem mapMeasure_set_lt {m : ContraptionMap} {p : Point} {t₀ t' : Terrain}
    (hg : m.get_terrain p = some t₀) (hc : cellMeasure t' < cellMeasure t₀) :
    mapMeasure (m.set_terrain p t') < mapMeasure m := by
  obtain ⟨j, row, i, hy, hrow, hx, hcell⟩ := get_terrain_decomp hg
  unfold mapMeasure
  rw [set_terrain_grid hy hrow hx t', List.map_set]
  exact sum_set_lt _ j (rowMeasure row) (rowMeasure (row.set i t'))
    (by rw [List.getElem?_map, hrow]; rfl) (rowMeasure_set_lt hcell hc)

theorem rowMeasure_le (row : List Terrain) : rowMeasure row ≤ row.length * 4 := by
  have h := List.sum_le_card_nsmul (row.map cellMeasure) 4
    (by
      intro x hx
      obtain ⟨t, _, rfl⟩ := List.mem_map.mp hx
      exact cellMeasure_le_four t)
  simpa [rowMeasure] using h

theorem pureE {ε α : Type} (a : α) : (pure a : Except ε α) = Except.ok a := rfl

theorem ok_bindE {ε α β : Type} (a : α) (f : α → Except ε β) :
    (Except.ok a >>= f : Except ε β) = f a := rfl

theorem error_bindE {ε α β : Type} (e : ε) (f : α → Except ε β) :
    (Except.error e >>= f : Except ε β) = Except.error e := rfl

theorem set_getElem_same {α : Type} : ∀ (l : List α) (n : Nat) (a : α),
    l[n]? = some a → l.set n a = l
  | [], n, a, h => by simp at h
  | x :: tl, 0, a, h => by
    simp only [List.getElem?_cons_zero, Option.some.injEq] at h
    rw [List.set_cons_zero, h]
  | x :: tl, n + 1, a, h => by
    simp only [List.getElem?_cons_succ] at h
    rw [List.set_cons_succ, set_getElem_same tl n a h]

theorem beamsAt_visited (m : ContraptionMap) (v : List Point) (q : Point) :
    beamsAt { m with visited := v } q = beamsAt m q := rfl

theorem beamsAt_eq {m : ContraptionMap} {p : Point} {t : Terrain}
    (hg : m.get_terrain p = some t) : beamsAt m p = t.beams := by
  unfold beamsAt
  rw [hg]

theorem beamsAt_set_self {m : ContraptionMap} {p : Point} {t₀ : Terrain}
    (hg : m.get_terrain p = some t₀) (t : Terrain) :
    beamsAt (m.set_terrain p t) p = t.beams := by
  unfold beamsAt
  rw [get_terrain_set_self hg]

theorem beamsAt_set_other {m : ContraptionMap} {p q : Point} {t₀ : Terrain}
    (hg : m.get_terrain p = some t₀) (t : Terrain) (hq : q ≠ p) :
    beamsAt (m.set_terrain p t) q = beamsAt m q := by
  unfold beamsAt
  rw [get_terrain_set_other hg t hq]

theorem types_set {m : ContraptionMap} {p : Point} {t₀ : Terrain}
    (hg : m.get_terrain p = some t₀) (t' : Terrain) (ht : t'.the_type = t₀.the_type) :
    (m.set_terrain p t').grid.map (List.map Terrain.the_type) =
      m.grid.map (List.map Terrain.the_type) := by
  obtain ⟨j, row, i, hy, hrow, hx, hcell⟩ := get_terrain_decomp hg
  rw [set_terrain_grid hy hrow hx t', List.map_set, List.map_set, ht]
  have h1 : (List.map Terrain.the_type row).set i t₀.the_type = List.map Terrain.the_type row :=
    set_getElem_same _ _ _ (by rw [List.getElem?_map, hcell]; rfl)
  rw [h1]
  exact set_getElem_same _ _ _ (by rw [List.getElem?_map, hrow]; rfl)

theorem wf_set {m : ContraptionMap} {p : Point} {t₀ : Terrain}
    (hg : m.get_terrain p = some t₀) (t' : Terrain) (hwf : m.WellFormed) :
    (m.set_terrain p t').WellFormed := by
  obtain ⟨j, row, i, hy, hrow, hx, hcell⟩ := get_terrain_decomp hg
  obtain ⟨hr, hc⟩ := hwf
  constructor
  · rw [set_terrain_rows, set_terrain_grid hy hrow hx t', List.length_set]
    exact hr
  · intro row' hrow'
    rw [set_terrain_columns]
    rw [set_terrain_grid hy hrow hx t'] at hrow'
    rcases List.mem_or_eq_of_mem_set hrow' with h | h
    · exact hc row' h
    · rw [h, List.length_set]
      exact hc row (List.getElem?_mem hrow)

theorem nodup_set_push {m : ContraptionMap} {p : Point} {t₀ : Terrain} {b : Beam}
    (hg : m.get_terrain p = some t₀) (hb : b ∉ t₀.beams) (hnd : NodupBeams m) :
    NodupBeams (m.set_terrain p { t₀ with beams := t₀.beams ++ [b], energized := true }) := by
  obtain ⟨j, row, i, hy, hrow, hx, hcell⟩ := get_terrain_decomp hg
  intro row' hrow' t ht
  rw [set_terrain_grid hy hrow hx] at hrow'
  rcases List.mem_or_eq_of_mem_set hrow' with h | h
  · exact hnd row' h t ht
  · subst h
    rcases List.mem_or_eq_of_mem_set ht with h' | h'
    · exact hnd row (List.getElem?_mem hrow) t h'
    · subst h'
      have hnd₀ : t₀.beams.Nodup :=
        hnd row (List.getElem?_mem hrow) t₀ (List.getElem?_mem hcell)
      simp [List.nodup_append, hnd₀, hb]

theorem pres_refl (m : ContraptionMap) : Pres m m :=
  ⟨rfl, rfl, rfl, fun _ _ h => h, fun _ h => h⟩

theorem pres_trans {a b c : ContraptionMap} (h₁ : Pres a b) (h₂ : Pres b c) : Pres a c := by
  obtain ⟨r1, c1, t1, b1, v1⟩ := h₁
  obtain ⟨r2, c2, t2, b2, v2⟩ := h₂
  exact ⟨r2.trans r1, c2.trans c1, t2.trans t1, fun q d h => b2 q d (b1 q d h),
    fun q h => v2 q (v1 q h)⟩

theorem pres_visited (m : ContraptionMap) (p : Point) :
    Pres m { m with visited := insertPoint m.visited p } :=
  ⟨rfl, rfl, rfl, fun _ _ h => h, fun q h => (mem_insertPoint _ _ _).mpr (Or.inr h)⟩

theorem pres_set_push {m : ContraptionMap} {p : Point} {t : Terrain} {b : Beam}
    (hg : m.get_terrain p = some t) :
    Pres m (m.set_terrain p { t with beams := t.beams ++ [b], energized := true }) := by
  refine ⟨set_terrain_rows m p _, set_terrain_columns m p _, types_set hg _ rfl, ?_, ?_⟩
  · intro q d hd
    by_cases hq : q = p
    · subst hq
      rw [beamsAt_set_self hg]
      rw [beamsAt_eq hg] at hd
      exact List.mem_append_left _ hd
    · rw [beamsAt_set_other hg _ hq]
      exact hd
  · intro q h
    rw [set_terrain_visited]
    exact h

theorem get_terrain_isSome_of_wf {m : ContraptionMap} {p : Point}
    (hwf : m.WellFormed) (hin : m.within_grid p) : ∃ t, m.get_terrain p = some t := by
  obtain ⟨hx0, hxc, hy0, hyr⟩ := hin
  obtain ⟨hr, hc⟩ := hwf
  have hjlt : p.y.toNat < m.grid.length := by
    rw [hr] at hyr
    omega
  obtain ⟨row, hrow⟩ : ∃ row, m.grid[p.y.toNat]? = some row := by
    cases h : m.grid[p.y.toNat]? with
    | none => rw [List.getElem?_eq_none_iff] at h; omega
    | some row => exact ⟨row, rfl⟩
  have hilt : p.x.toNat < row.length := by
    have := hc row (List.getElem?_mem hrow)
    omega
  obtain ⟨t, hcell⟩ : ∃ t, row[p.x.toNat]? = some t := by
    cases h : row[p.x.toNat]? with
    | none => rw [List.getElem?_eq_none_iff] at h; omega
    | some t => exact ⟨t, rfl⟩
  exact ⟨t, by rw [get_terrain_build (idxOf_of_nonneg hy0) hrow (idxOf_of_nonneg hx0)]; exact hcell⟩

theorem shootBeamGas_succ_out {m : ContraptionMap} {p : Point} (g : Nat) (b : Beam)
    (hin : ¬ m.within_grid p) : shootBeamGas (g + 1) m p b = .ok m := by
  rw [shootBeamGas_succ, if_neg hin]

theorem shootBeamGas_succ_none {m : ContraptionMap} {p : Point} (g : Nat) (b : Beam)
    (hin : m.within_grid p) (hg : m.get_terrain p = none) :
    shootBeamGas (g + 1) m p b = .error .oobAccess := by
  rw [shootBeamGas_succ, if_pos hin]
  have hg' : ContraptionMap.get_terrain { m with visited := insertPoint m.visited p } p = none := hg
  rw [hg']

theorem shootBeamGas_succ_mem {m : ContraptionMap} {p : Point} {t : Terrain} {b : Beam} (g : Nat)
    (hin : m.within_grid p) (hg : m.get_terrain p = some t) (hb : b ∈ t.beams) :
    shootBeamGas (g + 1) m p b = .ok { m with visited := insertPoint m.visited p } := by
  rw [shootBeamGas_succ, if_pos hin]
  have hg' : ContraptionMap.get_terrain { m with visited := insertPoint m.visited p } p
      = some t := hg
  rw [hg']
  simp only [if_pos hb]

theorem shootBeamGas_succ_new {m : ContraptionMap} {p : Point} {t : Terrain} {b : Beam} (g : Nat)
    (hin : m.within_grid p) (hg : m.get_terrain p = some t) (hb : b ∉ t.beams) :
    shootBeamGas (g + 1) m p b =
      (t.the_type.redirect b).foldlM
        (fun acc rb => shootBeamGas g acc (p.move_to rb) rb)
        (ContraptionMap.set_terrain { m with visited := insertPoint m.visited p } p
          { t with beams := t.beams ++ [b], energized := true }) := by
  rw [shootBeamGas_succ, if_pos hin]
  have hg' : ContraptionMap.get_terrain { m with visited := insertPoint m.visited p } p
      = some t := hg
  rw [hg']
  simp only [if_neg hb]

theorem mapMeasure_le (m : ContraptionMap) (hwf : m.WellFormed) :
    mapMeasure m ≤ 4 * m.rows.toNat * m.columns.toNat := by
  obtain ⟨hr, hc⟩ := hwf
  have h := List.sum_le_card_nsmul (m.grid.map rowMeasure) (m.columns.toNat * 4)
    (by
      intro x hx
      obtain ⟨row, hrow, rfl⟩ := List.mem_map.mp hx
      have hlen : row.length = m.columns.toNat := by
        rw [← hc row hrow]
        rfl
      calc rowMeasure row ≤ row.length * 4 := rowMeasure_le row
        _ = m.columns.toNat * 4 := by rw [hlen]
    )
  have hlen : (m.grid.map rowMeasure).length = m.rows.toNat := by
    simp only [List.length_map]
    rw [hr]
    rfl
  unfold mapMeasure
  calc (m.grid.map rowMeasure).sum ≤ (m.grid.map rowMeasure).length • (m.columns.toNat * 4) := h
    _ = m.rows.toNat * (m.columns.toNat * 4) := by rw [hlen, smul_eq_mul]
    _ = 4 * m.rows.toNat * m.columns.toNat := by ring

theorem shootAux : ∀ (g : Nat) (m : ContraptionMap) (p : Point) (b : Beam),
    (m.WellFormed → shootBeamGas g m p b ≠ .error .oobAccess) ∧
    (∀ m', shootBeamGas g m p b = .ok m' →
      Pres m m' ∧ (m.WellFormed → m'.WellFormed) ∧ (NodupBeams m → NodupBeams m') ∧
      mapMeasure m' ≤ mapMeasure m) := by
  intro g
  induction g with
  | zero =>
    intro m p b
    refine ⟨fun _ h => ?_, fun m' h => ?_⟩
    · rw [shootBeamGas_zero] at h
      exact TraceError.noConfusion (Except.error.inj h)
    · rw [shootBeamGas_zero] at h
      exact Except.noConfusion h
  | succ g ih =>
    have hlist : ∀ (p : Point) (l : List Beam) (m : ContraptionMap),
        (m.WellFormed →
          l.foldlM (fun acc rb => shootBeamGas g acc (p.move_to rb) rb) m
            ≠ .error .oobAccess) ∧
        (∀ m', l.foldlM (fun acc rb => shootBeamGas g acc (p.move_to rb) rb) m = .ok m' →
          Pres m m' ∧ (m.WellFormed → m'.WellFormed) ∧ (NodupBeams m → NodupBeams m') ∧
          mapMeasure m' ≤ mapMeasure m) := by
      intro p l
      induction l with
      | nil =>
        intro m
        refine ⟨fun _ h => ?_, fun m' h => ?_⟩
        · rw [List.foldlM_nil, pureE] at h
          exact Except.noConfusion h
        · rw [List.foldlM_nil, pureE] at h
          have h' := Except.ok.inj h
          subst h'
          exact ⟨pres_refl m, id, id, le_refl _⟩
      | cons rb rest ihl =>
        intro m
        rw [List.foldlM_cons]
        cases heq : shootBeamGas g m (p.move_to rb) rb with
        | error e =>
          rw [error_bindE]
          refine ⟨fun hwf h => ?_, fun m' h => ?_⟩
          · have hne := (ih m (p.move_to rb) rb).1 hwf
            rw [heq] at hne
            have he := Except.error.inj h
            subst he
            exact hne rfl
          · exact Except.noConfusion h
        | ok m₁ =>
          rw [ok_bindE]
          refine ⟨fun hwf h => ?_, fun m' h => ?_⟩
          · have hih := (ih m (p.move_to rb) rb).2 m₁ heq
            exact (ihl m₁).1 (hih.2.1 hwf) h
          · have hih := (ih m (p.move_to rb) rb).2 m₁ heq
            have hihl := (ihl m₁).2 m' h
            exact ⟨pres_trans hih.1 hihl.1, fun hwf => hihl.2.1 (hih.2.1 hwf),
              fun hnd => hihl.2.2.1 (hih.2.2.1 hnd),
              le_trans hihl.2.2.2 hih.2.2.2⟩
    intro m p b
    by_cases hin : m.within_grid p
    · cases hg : m.get_terrain p with
      | none =>
        refine ⟨fun hwf _ => ?_, fun m' h => ?_⟩
        · obtain ⟨t, hsome⟩ := get_terrain_isSome_of_wf hwf hin
          rw [hg] at hsome
          exact Option.noConfusion hsome
        · rw [shootBeamGas_succ_none g b hin hg] at h
          exact Except.noConfusion h
      | some t =>
        by_cases hb : b ∈ t.beams
        · rw [shootBeamGas_succ_mem g hin hg hb]
          refine ⟨fun _ h => Except.noConfusion h, fun m' h => ?_⟩
          have h' := Except.ok.inj h
          subst h'
          exact ⟨pres_visited m p, fun hwf => hwf, fun hnd => hnd, le_refl _⟩
        · rw [shootBeamGas_succ_new g hin hg hb]
          have hg₁ : ContraptionMap.get_terrain { m with visited := insertPoint m.visited p } p
              = some t := hg
          have hmeas : mapMeasure (ContraptionMap.set_terrain
              { m with visited := insertPoint m.visited p } p
              { t with beams := t.beams ++ [b], energized := true })
              < mapMeasure m :=
            mapMeasure_set_lt hg₁ (cellMeasure_push hb)
          refine ⟨fun hwf h => ?_, fun m' h => ?_⟩
          · exact (hlist p (t.the_type.redirect b) _).1 (wf_set hg₁ _ hwf) h
          · have hl := (hlist p (t.the_type.redirect b) _).2 m' h
            refine ⟨pres_trans (pres_trans (pres_visited m p) (pres_set_push hg₁)) hl.1,
              fun hwf => hl.2.1 (wf_set hg₁ _ hwf),
              fun hnd => hl.2.2.1 (nodup_set_push hg₁ hb hnd),
              le_trans hl.2.2.2 (le_of_lt hmeas)⟩
    · rw [shootBeamGas_succ_out g b hin]
      refine ⟨fun _ h => Except.noConfusion h, fun m' h => ?_⟩
      have h' := Except.ok.inj h
      subst h'
      exact ⟨pres_refl m, id, id, le_refl _⟩

theorem shootListPres {g : Nat} {p : Point} {l : List Beam} {m m' : ContraptionMap}
    (h : l.foldlM (fun acc rb => shootBeamGas g acc (p.move_to rb) rb) m = .ok m') :
    Pres m m' := by
  induction l generalizing m with
  | nil =>
    rw [List.foldlM_nil, pureE] at h
    have h' := Except.ok.inj h
    subst h'
    exact pres_refl m
  | cons rb rest ihl =>
    rw [List.foldlM_cons] at h
    cases heq : shootBeamGas g m (p.move_to rb) rb with
    | error e =>
      rw [heq, error_bindE] at h
      exact Except.noConfusion h
    | ok m₁ =>
      rw [heq, ok_bindE] at h
      exact pres_trans ((shootAux g m (p.move_to rb) rb).2 m₁ heq).1 (ihl h)

theorem shootAdequate : ∀ (g : Nat) (m : ContraptionMap) (p : Point) (b : Beam),
    m.WellFormed → mapMeasure m < g → ∃ m', shootBeamGas g m p b = .ok m' := by
  intro g
  induction g with
  | zero =>
    intro m p b _ h
    omega
  | succ g ih =>
    have hlist : ∀ (p : Point) (l : List Beam) (m : ContraptionMap), m.WellFormed →
        mapMeasure m < g →
        ∃ m', l.foldlM (fun acc rb => shootBeamGas g acc (p.move_to rb) rb) m = .ok m' := by
      intro p l
      induction l with
      | nil =>
        intro m _ _
        exact ⟨m, by rw [List.foldlM_nil, pureE]⟩
      | cons rb rest ihl =>
        intro m hwf hlt
        obtain ⟨m₁, h₁⟩ := ih m (p.move_to rb) rb hwf hlt
        have haux := (shootAux g m (p.move_to rb) rb).2 m₁ h₁
        obtain ⟨m', h'⟩ := ihl m₁ (haux.2.1 hwf) (lt_of_le_of_lt haux.2.2.2 hlt)
        exact ⟨m', by rw [List.foldlM_cons, h₁, ok_bindE]; exact h'⟩
    intro m p b hwf hlt
    by_cases hin : m.within_grid p
    · cases hg : m.get_terrain p with
      | none =>
        obtain ⟨t, hsome⟩ := get_terrain_isSome_of_wf hwf hin
        rw [hg] at hsome
        exact Option.noConfusion hsome
      | some t =>
        by_cases hb : b ∈ t.beams
        · exact ⟨_, shootBeamGas_succ_mem g hin hg hb⟩
        · have hg₁ : ContraptionMap.get_terrain { m with visited := insertPoint m.visited p } p
              = some t := hg
          have hmeas := mapMeasure_set_lt hg₁ (cellMeasure_push hb)
          have hsame : mapMeasure { m with visited := insertPoint m.visited p }
              = mapMeasure m := rfl
          obtain ⟨m', h'⟩ := hlist p (t.the_type.redirect b)
            (ContraptionMap.set_terrain { m with visited := insertPoint m.visited p } p
              { t with beams := t.beams ++ [b], energized := true })
            (wf_set hg₁ _ hwf) (by omega)
          exact ⟨m', by rw [shootBeamGas_succ_new g hin hg hb]; exact h'⟩
    · exact ⟨m, shootBeamGas_succ_out g b hin⟩

theorem shoot_records {gas : Nat} {m : ContraptionMap} {p : Point} {b : Beam}
    {m' : ContraptionMap} (hin : m.within_grid p)
    (h : shootBeamGas gas m p b = .ok m') : b ∈ beamsAt m' p := by
  cases gas with
  | zero =>
    rw [shootBeamGas_zero] at h
    exact Except.noConfusion h
  | succ g =>
  cases hg : m.get_terrain p with
  | none =>
    rw [shootBeamGas_succ_none g b hin hg] at h
    exact Except.noConfusion h
  | some t =>
    by_cases hb : b ∈ t.beams
    · rw [shootBeamGas_succ_mem g hin hg hb] at h
      have h' := Except.ok.inj h
      subst h'
      rw [beamsAt_visited, beamsAt_eq hg]
      exact hb
    · rw [shootBeamGas_succ_new g hin hg hb] at h
      have hg₁ : ContraptionMap.get_terrain { m with visited := insertPoint m.visited p } p
          = some t := hg
      have hb₂ : b ∈ beamsAt (ContraptionMap.set_terrain
          { m with visited := insertPoint m.visited p } p
          { t with beams := t.beams ++ [b], energized := true }) p := by
        rw [beamsAt_set_self hg₁]
        exact List.mem_append_right _ (by simp)
      exact (shootListPres h).2.2.2.1 p b hb₂

theorem energizedAt_eq {m : ContraptionMap} {p : Point} {t : Terrain}
    (hg : m.get_terrain p = some t) : energizedAt m p = t.energized := by
  unfold energizedAt
  rw [hg]

theorem energizedAt_set_self {m : ContraptionMap} {p : Point} {t₀ : Terrain}
    (hg : m.get_terrain p = some t₀) (t : Terrain) :
    energizedAt (m.set_terrain p t) p = t.energized := by
  unfold energizedAt
  rw [get_terrain_set_self hg]

theorem energizedAt_set_other {m : ContraptionMap} {p q : Point} {t₀ : Terrain}
    (hg : m.get_terrain p = some t₀) (t : Terrain) (hq : q ≠ p) :
    energizedAt (m.set_terrain p t) q = energizedAt m q := by
  unfold energizedAt
  rw [get_terrain_set_other hg t hq]

theorem filterlen_set {row : List Terrain} {i : Nat} {t t' : Terrain} (h : row[i]? = some t) :
    ((row.set i t').filter (fun x => x.energized)).length + (if t.energized then 1 else 0)
      = (row.filter (fun x => x.energized)).length + (if t'.energized then 1 else 0) := by
  induction row generalizing i with
  | nil => simp at h
  | cons a tl ihr =>
    cases i with
    | zero =>
      simp only [List.getElem?_cons_zero, Option.some.injEq] at h
      rw [List.set_cons_zero, List.filter_cons, List.filter_cons, ← h]
      cases ha : a.energized <;> cases ht' : t'.energized <;>
        simp [ha, ht'] <;> omega
    | succ i =>
      simp only [List.getElem?_cons_succ] at h
      rw [List.set_cons_succ, List.filter_cons, List.filter_cons]
      have := ihr h
      cases ha : a.energized <;> simp [ha] <;> omega

theorem energizedCount_visited (m : ContraptionMap) (v : List Point) :
    energizedCount { m with visited := v } = energizedCount m := rfl

theorem energizedCount_set {m : ContraptionMap} {p : Point} {t : Terrain}
    (hg : m.get_terrain p = some t) (t' : Terrain) :
    energizedCount (m.set_terrain p t') + (if t.energized then 1 else 0)
      = energizedCount m + (if t'.energized then 1 else 0) := by
  obtain ⟨j, row, i, hy, hrow, hx, hcell⟩ := get_terrain_decomp hg
  unfold energizedCount
  rw [set_terrain_grid hy hrow hx t', List.map_set]
  have h1 := sum_set_add (m.grid.map (fun row => (row.filter (fun x => x.energized)).length)) j
    ((row.filter (fun x => x.energized)).length)
    (((row.set i t').filter (fun x => x.energized)).length)
    (by rw [List.getElem?_map, hrow]; rfl)
  have h2 := @filterlen_set row i t t' hcell
  omega

theorem invAux : ∀ (g : Nat) (m : ContraptionMap) (p : Point) (b : Beam)
    (m' : ContraptionMap), SessionInv m → shootBeamGas g m p b = .ok m' → SessionInv m' := by
  intro g
  induction g with
  | zero =>
    intro m p b m' _ h
    rw [shootBeamGas_zero] at h
    exact Except.noConfusion h
  | succ g ih =>
    have hlist : ∀ (p : Point) (l : List Beam) (m m' : ContraptionMap), SessionInv m →
        l.foldlM (fun acc rb => shootBeamGas g acc (p.move_to rb) rb) m = .ok m' →
        SessionInv m' := by
      intro p l
      induction l with
      | nil =>
        intro m m' hinv h
        rw [List.foldlM_nil, pureE] at h
        have h' := Except.ok.inj h
        subst h'
        exact hinv
      | cons rb rest ihl =>
        intro m m' hinv h
        rw [List.foldlM_cons] at h
        cases heq : shootBeamGas g m (p.move_to rb) rb with
        | error e =>
          rw [heq, error_bindE] at h
          exact Except.noConfusion h
        | ok m₁ =>
          rw [heq, ok_bindE] at h
          exact ihl m₁ m' (ih m (p.move_to rb) rb m₁ hinv heq) h
    intro m p b m' hinv h
    by_cases hin : m.within_grid p
    · cases hg : m.get_terrain p with
      | none =>
        rw [shootBeamGas_succ_none g b hin hg] at h
        exact Except.noConfusion h
      | some t =>
        by_cases hb : b ∈ t.beams
        · rw [shootBeamGas_succ_mem g hin hg hb] at h
          have h' := Except.ok.inj h
          subst h'
          have hpmem : p ∈ m.visited :=
            (hinv.1 p).mpr (by rw [beamsAt_eq hg]; exact List.ne_nil_of_mem hb)
          rw [insertPoint_of_mem hpmem]
          exact hinv
        · rw [shootBeamGas_succ_new g hin hg hb] at h
          have hg₁ : ContraptionMap.get_terrain { m with visited := insertPoint m.visited p } p
              = some t := hg
          refine hlist p (t.the_type.redirect b) _ m' ⟨?_, ?_, ?_⟩ h
          · intro q
            rw [set_terrain_visited]
            by_cases hq : q = p
            · subst hq
              constructor
              · intro _
                rw [beamsAt_set_self hg₁]
                simp
              · intro _
                exact (mem_insertPoint _ _ _).mpr (Or.inl rfl)
            · rw [beamsAt_set_other hg₁ _ hq, beamsAt_visited, mem_insertPoint]
              constructor
              · rintro (he | hmem)
                · exact absurd he hq
                · exact (hinv.1 q).mp hmem
              · intro hne
                exact Or.inr ((hinv.1 q).mpr hne)
          · intro q
            by_cases hq : q = p
            · subst hq
              rw [energizedAt_set_self hg₁, beamsAt_set_self hg₁]
              simp
            · rw [energizedAt_set_other hg₁ _ hq, beamsAt_set_other hg₁ _ hq,
                beamsAt_visited]
              exact hinv.2.1 q
          · rw [set_terrain_visited]
            have hcount : energizedCount (ContraptionMap.set_terrain
                { m with visited := insertPoint m.visited p } p
                { t with beams := t.beams ++ [b], energized := true })
                + (if t.energized = true then 1 else 0) = energizedCount m + 1 :=
              energizedCount_set hg₁ { t with beams := t.beams ++ [b], energized := true }
            by_cases hbe : t.beams = []
            · have hen : t.energized = false := by
                have := hinv.2.1 p
                rw [energizedAt_eq hg, beamsAt_eq hg, hbe] at this
                rcases he : t.energized with _ | _
                · rfl
                · exact absurd (this.mp he) (by simp)
              have hpnot : p ∉ m.visited := fun hmem => by
                have := (hinv.1 p).mp hmem
                rw [beamsAt_eq hg, hbe] at this
                exact this rfl
              rw [length_insertPoint_of_not_mem hpnot, hinv.2.2]
              rw [hen] at hcount
              simp at hcount
              omega
            · have hen : t.energized = true := by
                have := hinv.2.1 p
                rw [energizedAt_eq hg, beamsAt_eq hg] at this
                exact this.mpr hbe
              have hpmem : p ∈ m.visited :=
                (hinv.1 p).mpr (by rw [beamsAt_eq hg]; exact hbe)
              rw [insertPoint_of_mem hpmem] at hcount ⊢
              rw [hinv.2.2]
              rw [hen] at hcount
              simp at hcount
              omega
    · rw [shootBeamGas_succ_out g b hin] at h
      have h' := Except.ok.inj h
      subst h'
      exact hinv

theorem map_types_reset (row : List Terrain) :
    (row.map Terrain.reset).map Terrain.the_type = row.map Terrain.the_type := by
  rw [List.map_map]
  rfl

theorem types_clear (m : ContraptionMap) :
    m.clearTrace.grid.map (List.map Terrain.the_type)
      = m.grid.map (List.map Terrain.the_type) := by
  unfold ContraptionMap.clearTrace
  simp only [List.map_map]
  apply List.map_congr_left
  intro row _
  simp only [Function.comp_apply]
  exact map_types_reset row

theorem clear_congr {a b : ContraptionMap} (hr : a.rows = b.rows) (hc : a.columns = b.columns)
    (ht : a.grid.map (List.map Terrain.the_type) = b.grid.map (List.map Terrain.the_type)) :
    a.clearTrace = b.clearTrace := by
  have key : ∀ g : List (List Terrain),
      g.map (List.map Terrain.reset) = (g.map (List.map Terrain.the_type)).map
        (List.map (fun ty => Terrain.mk ty [] false)) := by
    intro g
    simp only [List.map_map]
    apply List.map_congr_left
    intro row _
    simp only [Function.comp_apply, List.map_map]
    rfl
  unfold ContraptionMap.clearTrace
  rw [hr, hc, key a.grid, key b.grid, ht]

theorem clear_clear (m : ContraptionMap) : m.clearTrace.clearTrace = m.clearTrace :=
  clear_congr rfl rfl (types_clear m)

theorem wf_clear {m : ContraptionMap} (hwf : m.WellFormed) : m.clearTrace.WellFormed := by
  obtain ⟨hr, hc⟩ := hwf
  constructor
  · simpa [ContraptionMap.clearTrace] using hr
  · intro row' hrow'
    simp only [ContraptionMap.clearTrace, List.mem_map] at hrow'
    obtain ⟨row, hrow, rfl⟩ := hrow'
    simpa using hc row hrow

theorem get_terrain_clear (m : ContraptionMap) (q : Point) :
    m.clearTrace.get_terrain q = (m.get_terrain q).map Terrain.reset := by
  unfold ContraptionMap.clearTrace ContraptionMap.get_terrain
  cases hy : idxOf q.y with
  | none => rfl
  | some j =>
    simp only [Option.some_bind]
    rw [List.getElem?_map]
    cases hrow : m.grid[j]? with
    | none => rfl
    | some row =>
      simp only [Option.map_some', Option.some_bind]
      cases hx : idxOf q.x with
      | none => rfl
      | some i =>
        simp only [Option.some_bind]
        rw [List.getElem?_map]

theorem beamsAt_clear (m : ContraptionMap) (q : Point) : beamsAt m.clearTrace q = [] := by
  unfold beamsAt
  rw [get_terrain_clear]
  cases m.get_terrain q with
  | none => rfl
  | some t => rfl

theorem energizedAt_clear (m : ContraptionMap) (q : Point) :
    energizedAt m.clearTrace q = false := by
  unfold energizedAt
  rw [get_terrain_clear]
  cases m.get_terrain q with
  | none => rfl
  | some t => rfl

theorem energizedCount_clear (m : ContraptionMap) : energizedCount m.clearTrace = 0 := by
  have key : ∀ row : List Terrain,
      (row.map Terrain.reset).filter (fun x => x.energized) = [] := by
    intro row
    induction row with
    | nil => rfl
    | cons a tl ihr =>
      rw [List.map_cons, List.filter_cons_of_neg (by simp [Terrain.reset])]
      exact ihr
  unfold energizedCount ContraptionMap.clearTrace
  simp only [List.map_map]
  apply List.sum_eq_zero
  intro x hx
  simp only [List.mem_map] at hx
  obtain ⟨row, _, rfl⟩ := hx
  simp only [Function.comp_apply, key row, List.length_nil]

theorem inv_clear (m : ContraptionMap) : SessionInv m.clearTrace := by
  refine ⟨?_, ?_, ?_⟩
  · intro q
    constructor
    · intro h
      exact absurd h (List.not_mem_nil q)
    · intro h
      exact absurd (beamsAt_clear m q) h
  · intro q
    rw [energizedAt_clear, beamsAt_clear]
    simp
  · rw [energizedCount_clear]
    rfl

theorem shoot_beam_ok {m : ContraptionMap} (p : Point) (b : Beam) (hwf : m.WellFormed) :
    shootBeamGas (mapMeasure m + 1) m p b = .ok (m.shoot_beam p b) := by
  obtain ⟨m', h⟩ := shootAdequate (mapMeasure m + 1) m p b hwf (by omega)
  unfold ContraptionMap.shoot_beam okOr
  rw [h]

theorem shoot_beam_pres (m : ContraptionMap) (p : Point) (b : Beam) :
    Pres m (m.shoot_beam p b) := by
  unfold ContraptionMap.shoot_beam okOr
  cases h : shootBeamGas (mapMeasure m + 1) m p b with
  | ok m' => exact ((shootAux _ m p b).2 m' h).1
  | error e => exact pres_refl m

theorem shoot_beam_inv (m : ContraptionMap) (p : Point) (b : Beam) (hinv : SessionInv m) :
    SessionInv (m.shoot_beam p b) := by
  unfold ContraptionMap.shoot_beam okOr
  cases h : shootBeamGas (mapMeasure m + 1) m p b with
  | ok m' => exact invAux _ m p b m' hinv h
  | error e => exact hinv

theorem row_count (row : List Terrain) :
    (row.map (fun t => if t.energized then '#' else '.')).count '#'
      = (row.filter (fun x => x.energized)).length := by
  induction row with
  | nil => rfl
  | cons a tl ihr =>
    rw [List.map_cons]
    cases ha : a.energized with
    | true =>
      rw [if_pos rfl, List.count_cons_self, List.filter_cons_of_pos (by rw [ha]),
        List.length_cons, ihr]
    | false =>
      rw [if_neg (by simp), List.count_cons_of_ne (by decide),
        List.filter_cons_of_neg (by simp [ha]), ihr]

theorem count_intercalate_go : ∀ (as : List String) (acc : String),
    (String.intercalate.go acc "\n" as).toList.count '#'
      = acc.toList.count '#' + (as.map (fun s => s.toList.count '#')).sum := by
  intro as
  induction as with
  | nil =>
    intro acc
    simp [String.intercalate.go]
  | cons a tl ihl =>
    intro acc
    show (String.intercalate.go (acc ++ "\n" ++ a) "\n" tl).toList.count '#' = _
    rw [ihl (acc ++ "\n" ++ a)]
    have hsplit : (acc ++ "\n" ++ a).toList = acc.toList ++ "\n".toList ++ a.toList := by
      show (acc ++ "\n" ++ a).data = acc.data ++ "\n".data ++ a.data
      rw [String.data_append, String.data_append]
    rw [hsplit, List.count_append, List.count_append]
    have hnl : ("\n".toList).count '#' = 0 := by decide
    rw [hnl, List.map_cons, List.sum_cons]
    omega

theorem count_intercalate : ∀ (as : List String),
    (String.intercalate "\n" as).toList.count '#'
      = (as.map (fun s => s.toList.count '#')).sum := by
  intro as
  cases as with
  | nil => rfl
  | cons a tl =>
    show (String.intercalate.go a "\n" tl).toList.count '#' = _
    rw [count_intercalate_go tl a, List.map_cons, List.sum_cons]

theorem countHash_energy (m : ContraptionMap) :
    countHash m.get_energy_map = energizedCount m := by
  unfold countHash ContraptionMap.get_energy_map energizedCount
  rw [count_intercalate, List.map_map]
  congr 1
  apply List.map_congr_left
  intro row _
  simp only [Function.comp_apply]
  exact row_count row

theorem mapM_isSome {α β : Type} (f : α → Option β) :
    ∀ l : List α, (l.mapM f).isSome = true ↔ ∀ a ∈ l, (f a).isSome = true := by
  intro l
  induction l with
  | nil =>
    rw [List.mapM_nil]
    simp [pure]
  | cons a tl ihl =>
    rw [List.mapM_cons]
    cases hfa : f a with
    | none =>
      simp only [Option.bind_eq_bind, Option.none_bind, Option.isSome_none]
      constructor
      · intro h
        exact absurd h (by simp)
      · intro h
        have h1 := h a (List.mem_cons_self a tl)
        rw [hfa] at h1
        exact absurd h1 (by simp)
    | some b =>
      simp only [Option.bind_eq_bind, Option.some_bind]
      cases htl : tl.mapM f with
      | none =>
        simp only [Option.none_bind, Option.isSome_none]
        constructor
        · intro h
          exact absurd h (by simp)
        · intro h
          have h2 : ∀ x ∈ tl, (f x).isSome = true :=
            fun x hx => h x (List.mem_cons_of_mem a hx)
          have h3 := ihl.mpr h2
          rw [htl] at h3
          exact absurd h3 (by simp)
      | some bs =>
        simp only [Option.some_bind]
        constructor
        · intro _ x hx
          rcases List.mem_cons.mp hx with he | hmem
          · rw [he, hfa]
            rfl
          · have h3 : (tl.mapM f).isSome = true := by rw [htl]; rfl
            exact (ihl.mp h3) x hmem
        · intro _
          rfl

theorem mapM_eq_some_nil {α β : Type} (f : α → Option β) :
    ∀ (l : List α) (bs : List β), l.mapM f = some bs → (bs = [] ↔ l = []) := by
  intro l bs
  cases l with
  | nil =>
    intro h
    rw [List.mapM_nil] at h
    have h' := Option.some.inj h
    subst h'
    simp
  | cons a tl =>
    intro h
    rw [List.mapM_cons] at h
    simp only [Option.bind_eq_bind, Option.bind_eq_some] at h
    obtain ⟨b, _, bs', _, heq⟩ := h
    have h' := Option.some.inj heq
    subst h'
    simp

theorem terrain_from_char_isSome (c : Char) :
    (Terrain.from_char c).isSome = (TerrainType.from_char c).isSome := by
  unfold Terrain.from_char
  rw [Option.isSome_map']

theorem from_strings_isSome (input : List String) :
    (ContraptionMap.from_strings input).isSome = true ↔ ParseAccepts input := by
  unfold ContraptionMap.from_strings ParseAccepts
  cases hm : ((input.filter (fun s => !s.isEmpty)).mapM
      (fun s => s.toList.mapM Terrain.from_char) : Option (List (List Terrain))) with
  | none =>
    simp only [Option.bind_eq_bind, Option.none_bind, Option.isSome_none]
    constructor
    · intro h
      exact absurd h (by simp)
    · rintro ⟨_, hall⟩
      have : (((input.filter (fun s => !s.isEmpty)).mapM
          (fun s => s.toList.mapM Terrain.from_char) : Option (List (List Terrain)))).isSome
          = true := by
        rw [mapM_isSome]
        intro s hs
        rw [mapM_isSome]
        intro c hc
        rw [terrain_from_char_isSome]
        exact hall s hs c hc
      rw [hm] at this
      exact absurd this (by simp)
  | some grid =>
    simp only [Option.bind_eq_bind, Option.some_bind]
    cases hgrid : grid with
    | nil =>
      simp only [List.head?_nil, Option.none_bind, Option.isSome_none]
      constructor
      · intro h
        exact absurd h (by simp)
      · rintro ⟨hne, _⟩
        rw [hgrid] at hm
        exact absurd ((mapM_eq_some_nil _ _ _ hm).mp rfl) hne
    | cons r rest =>
      simp only [List.head?_cons, Option.some_bind, Option.isSome_some, true_iff]
      constructor
      · rw [hgrid] at hm
        intro he
        rw [he] at hm
        rw [List.mapM_nil] at hm
        have := Option.some.inj hm
        exact List.noConfusion this
      · intro s hs c hc
        rw [← terrain_from_char_isSome]
        have h1 : (((input.filter (fun x => !x.isEmpty)).mapM
            (fun s => s.toList.mapM Terrain.from_char) : Option (List (List Terrain)))).isSome
            = true := by
          rw [hm]
          rfl
        rw [mapM_isSome] at h1
        have h2 := h1 s hs
        rw [mapM_isSome] at h2
        exact h2 c hc

/-- C1: for every (element type, incoming direction) pair, `redirect` returns
exactly the outgoing direction(s) of the table in spec §4.2: EmptySpace passes
every direction through; the `/` mirror maps North↦East, East↦North,
South↦West, West↦South; the `\` mirror maps North↦West, East↦South,
South↦East, West↦North; the `|` splitter maps East and West each to the set
containing North and South and passes North and South through; the `-`
splitter maps North and South each to the set containing East and West and
passes East and West through; the two-output results are stated as sets, so
their order is irrelevant. -/
theorem redirect_matches_table :
    (∀ d : Direction, TerrainType.EmptySpace.redirect d = [d]) ∧
    TerrainType.NorthEastMirror.redirect Direction.North = [Direction.East] ∧
    TerrainType.NorthEastMirror.redirect Direction.East = [Direction.North] ∧
    TerrainType.NorthEastMirror.redirect Direction.South = [Direction.West] ∧
    TerrainType.NorthEastMirror.redirect Direction.West = [Direction.South] ∧
    TerrainType.NorthWestMirror.redirect Direction.North = [Direction.West] ∧
    TerrainType.NorthWestMirror.redirect Direction.East = [Direction.South] ∧
    TerrainType.NorthWestMirror.redirect Direction.South = [Direction.East] ∧
    TerrainType.NorthWestMirror.redirect Direction.West = [Direction.North] ∧
    (TerrainType.NorthSouthSplitter.redirect Direction.East).toFinset
      = {Direction.North, Direction.South} ∧
    (TerrainType.NorthSouthSplitter.redirect Direction.East).length = 2 ∧
    (TerrainType.NorthSouthSplitter.redirect Direction.West).toFinset
      = {Direction.North, Direction.South} ∧
    (TerrainType.NorthSouthSplitter.redirect Direction.West).length = 2 ∧
    TerrainType.NorthSouthSplitter.redirect Direction.North = [Direction.North] ∧
    TerrainType.NorthSouthSplitter.redirect Direction.South = [Direction.South] ∧
    (TerrainType.EastWestSplitter.redirect Direction.North).toFinset
      = {Direction.East, Direction.West} ∧
    (TerrainType.EastWestSplitter.redirect Direction.North).length = 2 ∧
    (TerrainType.EastWestSplitter.redirect Direction.South).toFinset
      = {Direction.East, Direction.West} ∧
    (TerrainType.EastWestSplitter.redirect Direction.South).length = 2 ∧
    TerrainType.EastWestSplitter.redirect Direction.East = [Direction.East] ∧
    TerrainType.EastWestSplitter.redirect Direction.West = [Direction.West] := by
  decide

/-- C3: on a well-formed rectangular grid whose cells record no direction
twice, the tracer started anywhere terminates within a recursion depth budget
of 4×rows×columns + 1 (it never runs out of that budget and never faults),
and afterwards still no (position, direction) state has been recorded twice. -/
theorem shoot_beam_terminates (m : ContraptionMap) (p : Point) (b : Beam)
    (hwf : m.WellFormed) (hnd : NodupBeams m) :
    isOkE (shootBeamGas (4 * m.rows.toNat * m.columns.toNat + 1) m p b) = true ∧
    NodupBeams (okOr m (shootBeamGas (4 * m.rows.toNat * m.columns.toNat + 1) m p b)) := by
  have hb := mapMeasure_le m hwf
  obtain ⟨m', h⟩ := shootAdequate (4 * m.rows.toNat * m.columns.toNat + 1) m p b hwf (by omega)
  rw [h]
  exact ⟨rfl, ((shootAux _ m p b).2 m' h).2.2.1 hnd⟩

/-- C3 witness: the bound is reached with the budget intact on a concrete
1×1 grid of empty space. -/
theorem shoot_beam_terminates_witness :
    isOkE (shootBeamGas (4 * cmOne.rows.toNat * cmOne.columns.toNat + 1) cmOne ⟨0, 0⟩
      Direction.East) = true ∧
    NodupBeams (okOr cmOne (shootBeamGas (4 * cmOne.rows.toNat * cmOne.columns.toNat + 1)
      cmOne ⟨0, 0⟩ Direction.East)) :=
  shoot_beam_terminates cmOne ⟨0, 0⟩ Direction.East (by decide) (by decide)

/-- C4: when the tracer encounters a BeamState already processed in the
session (the direction is already recorded at the in-bounds position, and the
position is in the visited set, as every processed position is), the call
returns the state completely unchanged: no new position is ever added by
re-encountering an identical BeamState, so a cyclic beam path leaves the same
energized set as processing the cycle once. -/
theorem revisit_no_new_positions (m : ContraptionMap) (p : Point) (b : Beam) (gas : Nat)
    (t : Terrain) (hin : m.within_grid p) (hg : m.get_terrain p = some t)
    (hb : b ∈ t.beams) (hv : p ∈ m.visited) :
    shootBeamGas (gas + 1) m p b = .ok m := by
  rw [shootBeamGas_succ_mem gas hin hg hb, insertPoint_of_mem hv]

/-- C4 witness: a concrete 1×1 session in which `(0,0) East` was already
processed is returned unchanged. -/
theorem revisit_no_new_positions_witness :
    shootBeamGas 1 cmCycle ⟨0, 0⟩ Direction.East = .ok cmCycle :=
  revisit_no_new_positions cmCycle ⟨0, 0⟩ Direction.East 0
    ⟨TerrainType.EmptySpace, [Direction.East], true⟩ (by decide) (by decide) (by decide)
    (by decide)

/-- C8: the tracer discards out-of-bounds BeamStates without touching the
grid (the call returns its input state unchanged), and on a well-formed grid
no trace, whatever its budget, start point and direction, ever commits an
out-of-bounds element access. -/
theorem tracer_bounds_checks (m : ContraptionMap) (p : Point) (b : Beam) (gas gas' : Nat)
    (q : Point) (d : Beam) (hout : ¬ m.within_grid p) (hwf : m.WellFormed) :
    shootBeamGas (gas + 1) m p b = .ok m ∧
    shootBeamGas gas' m q d ≠ .error .oobAccess :=
  ⟨shootBeamGas_succ_out gas b hout, (shootAux gas' m q d).1 hwf⟩

/-- C8 witness: on the concrete 1×1 grid, the state `(5,5) East` is discarded
unchanged, and a fully traced start commits no out-of-bounds access. -/
theorem tracer_bounds_checks_witness :
    shootBeamGas 1 cmOne ⟨5, 5⟩ Direction.East = .ok cmOne ∧
    shootBeamGas 9 cmOne ⟨0, 0⟩ Direction.South ≠ .error .oobAccess :=
  tracer_bounds_checks cmOne ⟨5, 5⟩ Direction.East 0 9 ⟨0, 0⟩ Direction.South (by decide)
    (by decide)

/-- C5 counterexample: on the 1×1 grid `|`, a beam heading East enters the
vertical splitter at P = (0,0) and is processed there (East is recorded at P),
yet neither (P, North) nor (P, South) is a processed state when the trace
ends: the split beams are spawned at P's neighbors, not at P. -/
theorem splitter_states_at_P_missing :
    ContraptionMap.from_strings ["|"] = some cmSplit ∧
    (cmSplit.get_terrain ⟨0, 0⟩).map Terrain.the_type = some TerrainType.NorthSouthSplitter ∧
    Direction.East ∈ beamsAt (cmSplit.shoot_beam ⟨0, 0⟩ Direction.East) ⟨0, 0⟩ ∧
    Direction.North ∉ beamsAt (cmSplit.shoot_beam ⟨0, 0⟩ Direction.East) ⟨0, 0⟩ ∧
    Direction.South ∉ beamsAt (cmSplit.shoot_beam ⟨0, 0⟩ Direction.East) ⟨0, 0⟩ := by
  decide

/-- C5 amended: when a beam heading East is processed at a VerticalSplitter at
position P on a well-formed grid, and P's north and south neighbors lie in the
grid, the trace completes and the two split BeamStates are recorded at those
neighbors: (P + North, North) and (P + South, South) are processed states of
the finished session. -/
theorem splitter_splits_to_neighbors (m : ContraptionMap) (p : Point) (gas : Nat) (t : Terrain)
    (hwf : m.WellFormed) (hgas : mapMeasure m < gas)
    (hin : m.within_grid p) (hg : m.get_terrain p = some t)
    (ht : t.the_type = TerrainType.NorthSouthSplitter) (hb : Direction.East ∉ t.beams)
    (hn : m.within_grid (p.move_to Direction.North))
    (hs : m.within_grid (p.move_to Direction.South)) :
    isOkE (shootBeamGas gas m p Direction.East) = true ∧
    Direction.North ∈ beamsAt (okOr m (shootBeamGas gas m p Direction.East))
      (p.move_to Direction.North) ∧
    Direction.South ∈ beamsAt (okOr m (shootBeamGas gas m p Direction.East))
      (p.move_to Direction.South) := by
  cases gas with
  | zero => exact absurd hgas (by omega)
  | succ g =>
    have hg₁ : ContraptionMap.get_terrain { m with visited := insertPoint m.visited p } p
        = some t := hg
    have hwf₂ : (ContraptionMap.set_terrain { m with visited := insertPoint m.visited p } p
        { t with beams := t.beams ++ [Direction.East], energized := true }).WellFormed :=
      wf_set hg₁ _ hwf
    have hmeas₂ := mapMeasure_set_lt hg₁ (cellMeasure_push hb)
    have hsame : mapMeasure { m with visited := insertPoint m.visited p } = mapMeasure m := rfl
    obtain ⟨m₃, h₃⟩ := shootAdequate g _ (p.move_to Direction.North) Direction.North hwf₂
      (by omega)
    have haux₃ := (shootAux g _ (p.move_to Direction.North) Direction.North).2 m₃ h₃
    obtain ⟨m₄, h₄⟩ := shootAdequate g m₃ (p.move_to Direction.South) Direction.South
      (haux₃.2.1 hwf₂) (by have := haux₃.2.2.2; omega)
    have haux₄ := (shootAux g m₃ (p.move_to Direction.South) Direction.South).2 m₄ h₄
    have hNin₃ : Direction.North ∈ beamsAt m₃ (p.move_to Direction.North) :=
      shoot_records ((within_grid_set_terrain { m with visited := insertPoint m.visited p } p
        { t with beams := t.beams ++ [Direction.East], energized := true }
        (p.move_to Direction.North)).mpr hn) h₃
    have hwithin₃ : m₃.within_grid (p.move_to Direction.South) := by
      unfold ContraptionMap.within_grid at hs ⊢
      rw [haux₃.1.1, haux₃.1.2.1, set_terrain_rows, set_terrain_columns]
      exact hs
    have hSin₄ : Direction.South ∈ beamsAt m₄ (p.move_to Direction.South) :=
      shoot_records hwithin₃ h₄
    have hNin₄ : Direction.North ∈ beamsAt m₄ (p.move_to Direction.North) :=
      haux₄.1.2.2.2.1 _ _ hNin₃
    have hfold : shootBeamGas (g + 1) m p Direction.East = .ok m₄ := by
      have hred : t.the_type.redirect Direction.East = [Direction.North, Direction.South] := by
        rw [ht]
        rfl
      rw [shootBeamGas_succ_new g hin hg hb, hred]
      simp only [List.foldlM_cons, List.foldlM_nil]
      rw [h₃, ok_bindE, h₄, ok_bindE, pureE]
    rw [hfold]
    exact ⟨rfl, hNin₄, hSin₄⟩

/-- C5 amended witness: on the concrete 3×1 column grid with the splitter in
the middle, entering it heading East records North above and South below. -/
theorem splitter_splits_to_neighbors_witness :
    isOkE (shootBeamGas 13 cmColumn ⟨0, 1⟩ Direction.East) = true ∧
    Direction.North ∈ beamsAt (okOr cmColumn (shootBeamGas 13 cmColumn ⟨0, 1⟩ Direction.East))
      (Point.move_to ⟨0, 1⟩ Direction.North) ∧
    Direction.South ∈ beamsAt (okOr cmColumn (shootBeamGas 13 cmColumn ⟨0, 1⟩ Direction.East))
      (Point.move_to ⟨0, 1⟩ Direction.South) :=
  splitter_splits_to_neighbors cmColumn ⟨0, 1⟩ 13 ⟨TerrainType.NorthSouthSplitter, [], false⟩
    (by decide) (by decide) (by decide) (by decide) (by decide) (by decide) (by decide)
    (by decide)

/-- C6 counterexample: grid construction does not fail on rows of unequal
length or on an empty row: `[".", ".."]` parses into a non-rectangular grid
whose `columns` field comes from the first row, and `["..", ""]` parses with
the empty row silently dropped — while the claim requires an error in both
cases. -/
theorem from_strings_accepts_ragged :
    ContraptionMap.from_strings [".", ".."] = some
      { rows := 2, columns := 1,
        grid := [[⟨TerrainType.EmptySpace, [], false⟩],
          [⟨TerrainType.EmptySpace, [], false⟩, ⟨TerrainType.EmptySpace, [], false⟩]],
        visited := [] } ∧
    ContraptionMap.from_strings ["..", ""] = some
      { rows := 1, columns := 2,
        grid := [[⟨TerrainType.EmptySpace, [], false⟩, ⟨TerrainType.EmptySpace, [], false⟩]],
        visited := [] } := by
  decide

/-- C6 amended: grid construction fails exactly when no nonempty line remains
(empty lines are dropped, and an entirely empty input leaves nothing) or an
unrecognized element symbol occurs in a nonempty line; rows of unequal length
are accepted as they are, with the column count taken from the first
remaining line, so the result can be non-rectangular. -/
theorem from_strings_ok_iff (input : List String) :
    (ContraptionMap.from_strings input).isSome = true ↔ ParseAccepts input :=
  from_strings_isSome input

/-- C7: calling `get_amount_of_energized_tiles` twice in succession with
identical arguments returns the identical count both times — each invocation
first resets the per-cell beam lists, the energized flags and the visited set,
so the second call runs on exactly the state the first one ran on. -/
theorem count_energized_idempotent (m : ContraptionMap) (p : Point) (b : Beam) :
    ((m.get_amount_of_energized_tiles p b).1.get_amount_of_energized_tiles p b).2
      = (m.get_amount_of_energized_tiles p b).2 := by
  have heq : (m.clearTrace.shoot_beam p b).clearTrace = m.clearTrace := by
    have hpres := shoot_beam_pres m.clearTrace p b
    rw [clear_congr hpres.1 hpres.2.1 hpres.2.2.1, clear_clear]
  show (((m.clearTrace.shoot_beam p b).clearTrace.shoot_beam p b).visited.length : Int)
    = ((m.clearTrace.shoot_beam p b).visited.length : Int)
  rw [heq]

/-- C9: `get_amount_of_energized_tiles` is side-effect-free with respect to
the grid: the returned state keeps the dimensions and the terrain kind stored
at every cell of the input grid. -/
theorem count_energized_grid_readonly (m : ContraptionMap) (p : Point) (b : Beam) :
    (m.get_amount_of_energized_tiles p b).1.rows = m.rows ∧
    (m.get_amount_of_energized_tiles p b).1.columns = m.columns ∧
    (m.get_amount_of_energized_tiles p b).1.grid.map (List.map Terrain.the_type)
      = m.grid.map (List.map Terrain.the_type) := by
  have hpres := shoot_beam_pres m.clearTrace p b
  refine ⟨?_, ?_, ?_⟩
  · show (m.clearTrace.shoot_beam p b).rows = m.rows
    rw [hpres.1]
    rfl
  · show (m.clearTrace.shoot_beam p b).columns = m.columns
    rw [hpres.2.1]
    rfl
  · show (m.clearTrace.shoot_beam p b).grid.map (List.map Terrain.the_type)
      = m.grid.map (List.map Terrain.the_type)
    rw [hpres.2.2.1]
    exact types_clear m

/-- C10: after a complete trace started by `get_amount_of_energized_tiles`,
the three bookkeeping mechanisms agree: a position is in the visited set
exactly when its cell is energized, a cell is energized exactly when its
recorded beam list is nonempty, and the returned count equals the number of
`#` characters in `get_energy_map`'s output. -/
theorem trace_bookkeeping_coherent (m : ContraptionMap) (p : Point) (b : Beam) :
    (∀ q : Point, q ∈ (m.get_amount_of_energized_tiles p b).1.visited ↔
      energizedAt (m.get_amount_of_energized_tiles p b).1 q = true) ∧
    (∀ q : Point, energizedAt (m.get_amount_of_energized_tiles p b).1 q = true ↔
      beamsAt (m.get_amount_of_energized_tiles p b).1 q ≠ []) ∧
    (m.get_amount_of_energized_tiles p b).2
      = (countHash (m.get_amount_of_energized_tiles p b).1.get_energy_map : Int) := by
  have hinv : SessionInv (m.clearTrace.shoot_beam p b) :=
    shoot_beam_inv m.clearTrace p b (inv_clear m)
  refine ⟨?_, ?_, ?_⟩
  · intro q
    show q ∈ (m.clearTrace.shoot_beam p b).visited ↔
      energizedAt (m.clearTrace.shoot_beam p b) q = true
    rw [hinv.1 q, hinv.2.1 q]
  · intro q
    exact hinv.2.1 q
  · show ((m.clearTrace.shoot_beam p b).visited.length : Int)
      = (countHash (m.clearTrace.shoot_beam p b).get_energy_map : Int)
    rw [countHash_energy, hinv.2.2]

/-- C2: the maximizer's West-entry candidates are wrong in the source: for
each row index it evaluates `(Point(0, columns-1), West)` instead of
`(Point(columns-1, y), West)`, so the right border is never entered. On the
2×2 grid of rows `/.` and `|.` the maximizer returns 3, yet the candidate
`(Point(1,1), West)` required by the spec energizes 4 tiles, so the result is
not the maximum over (nor even at least) the specified candidate counts. -/
theorem maximizer_misses_west_entries :
    (ContraptionMap.from_strings ["/.", "|."]).map
        (fun m => ((m.get_most_amount_of_energized_tiles).2,
          (m.get_amount_of_energized_tiles ⟨1, 1⟩ Direction.West).2))
      = some (3, 4) := by
  decide
